import Mathlib

/-!
Verification development for the scraper-alquileres backend.

The Python sources (`src/main.py`, `src/a.py`) are shallowly embedded below:
records (pandas rows / dicts) become the structure `Rec`, DataFrames become
`List Rec`, numeric price values become `Nat`/`Int`, the desirability score
(a Python float built from integer counts, `3000/max(v,1)` and `min(a,120)/400`)
becomes an exact rational `ℚ`, and fallible operations return `Option`.
Python string helpers (`str.strip`, `str.lower`, substring test, `str.split`,
`re` digit extraction) are modelled on `List Char`.
-/

namespace Scraper

/-! ### String helpers (Python `str` operations) -/

/-- Python `str.strip` on a character list: drop whitespace from both ends. -/
def stripChars (l : List Char) : List Char :=
  ((l.dropWhile Char.isWhitespace).reverse.dropWhile Char.isWhitespace).reverse

/-- Python `str.strip` on a string. -/
def strip (s : String) : String := String.mk (stripChars s.data)

/-- Python `str.lower` (character-wise). -/
def lower (s : String) : String := String.mk (s.data.map Char.toLower)

/-- Python `str.upper` (character-wise). -/
def upper (s : String) : String := String.mk (s.data.map Char.toUpper)

/-- Substring test on character lists (Python `needle in haystack`). -/
def containsChars (needle : List Char) : List Char → Bool
  | [] => needle.isEmpty
  | c :: rest => needle.isPrefixOf (c :: rest) || containsChars needle rest

/-- Python `needle in haystack` for strings. -/
def containsB (needle hay : String) : Bool := containsChars needle.data hay.data

/-- Python `str.startswith`. -/
def startsWithB (needle s : String) : Bool := needle.data.isPrefixOf s.data

/-- Python `re.sub(r"[^\d]", "", s)`: keep only the digit characters. -/
def digitsOf (s : String) : List Char := s.data.filter Char.isDigit

/-- Decimal value of a digit list, most significant first (Python `int` on digits). -/
def natOfDigitsAcc (acc : Nat) : List Char → Nat
  | [] => acc
  | c :: rest => natOfDigitsAcc (acc * 10 + (c.toNat - 48)) rest

/-- First maximal run of digit characters in a list (Python `re.search(r"(\d+)", s)`);
`none` when the list has no digit. -/
def firstDigitRun : List Char → Option (List Char)
  | [] => none
  | c :: rest => if c.isDigit then some (c :: rest.takeWhile Char.isDigit)
                 else firstDigitRun rest

/-- Python `str.split()` (split on whitespace runs, dropping empty pieces);
`acc` holds the current in-progress token reversed. -/
def splitWsAux : List Char → List Char → List (List Char)
  | [], acc => if acc = [] then [] else [acc.reverse]
  | c :: rest, acc =>
    if c.isWhitespace then
      (if acc = [] then splitWsAux rest [] else acc.reverse :: splitWsAux rest [])
    else splitWsAux rest (c :: acc)

/-- Python `key.split("|")`: split on every bar character, keeping empty pieces. -/
def splitBarChars : List Char → List (List Char)
  | [] => [[]]
  | c :: rest =>
    if c = '|' then [] :: splitBarChars rest
    else
      match splitBarChars rest with
      | [] => [[c]]
      | h :: t => (c :: h) :: t

/-- Little-endian decimal digits of `n` with explicit fuel (structural, so the
kernel can evaluate it); used to model Python `str(int)`. -/
def natToRevDigitsAux : Nat → Nat → List Char
  | 0, _ => []
  | fuel + 1, n => if n = 0 then [] else Nat.digitChar (n % 10) :: natToRevDigitsAux fuel (n / 10)

/-- Little-endian decimal digits of `n`. -/
def natToRevDigits (n : Nat) : List Char := natToRevDigitsAux n n

/-- Python `str` of a natural number. -/
def natToStr (n : Nat) : String :=
  if n = 0 then "0" else String.mk (natToRevDigits n).reverse

/-- Python `str` of an integer. -/
def intToStr (i : Int) : String :=
  if i < 0 then "-" ++ natToStr i.natAbs else natToStr i.natAbs

/-- Body of Python `int(s)` after stripping: an optional sign followed by
digits. -/
def pyIntCore (c : Char) (rest : List Char) : Option Int :=
  if c = '-' then
    (if rest ≠ [] ∧ rest.all Char.isDigit then some (-(natOfDigitsAcc 0 rest : Int)) else none)
  else if c = '+' then
    (if rest ≠ [] ∧ rest.all Char.isDigit then some ((natOfDigitsAcc 0 rest : Int)) else none)
  else
    (if (c :: rest).all Char.isDigit then some ((natOfDigitsAcc 0 (c :: rest) : Int)) else none)

/-- Python `int(s)` on a character list: optional sign followed by digits,
surrounding whitespace allowed; `none` models a raised `ValueError`. -/
def pyToIntChars (l0 : List Char) : Option Int :=
  match stripChars l0 with
  | [] => none
  | c :: rest => pyIntCore c rest

/-! ### Data model -/

/-- One scraped/normalized property record: the dict shape produced by the
adapters in `src/a.py` and consumed by `src/main.py` (`titulo`, `precio`, `m2`,
`dormitorios`, `baños`, `descripcion`, `link`, `imagen_url`, `fuente`,
`is_featured`). -/
structure Rec where
  titulo : String
  precio : String
  m2 : String
  dormitorios : String
  banos : String
  descripcion : String
  link : String
  imagen_url : String
  fuente : String
  is_featured : Bool
deriving DecidableEq, Repr

instance : Inhabited Rec := ⟨⟨"", "", "", "", "", "", "", "", "", false⟩⟩

/-- A search request (`SearchRequest` in `src/main.py`): zone, bedroom and
bathroom counts as strings ("0" = unconstrained), optional price bounds,
free-text keywords. -/
structure SearchQuery where
  zona : String
  dormitorios : String
  banos : String
  price_min : Option Int
  price_max : Option Int
  palabras_clave : String
deriving DecidableEq, Repr

/-! ### Price and integer parsing (`src/a.py`) -/

/-- Currency marker recognised by `parse_precio_con_moneda`. -/
inductive Moneda
  | S
  | USD
deriving DecidableEq, Repr

/-- Model of `parse_precio_con_moneda` from `src/a.py`: detect the currency marker
("S/" substring or prefix of the stripped text → local soles; else "$" → USD)
and collect all digit characters into a number. -/
def parse_precio_con_moneda (s : String) : Option Moneda × Option Nat :=
  if s = "" then (none, none)
  else
    let moneda : Option Moneda :=
      if containsB "S/" s || startsWithB "S/" (strip s) then some .S
      else if containsB "$" s then some .USD
      else none
    let nums := digitsOf s
    (moneda, if nums = [] then none else some (natOfDigitsAcc 0 nums))

/-- Model of `_parse_price_soles` from `src/a.py`: the parsed amount when the currency
marker is the local one, otherwise `none`. -/
def parse_price_soles (s : String) : Option Nat :=
  match parse_precio_con_moneda s with
  | (some .S, v) => v
  | _ => none

/-- Model of `_extract_int_from_text` from `src/a.py`: first run of digits as a number. -/
def extract_int_from_text (s : String) : Option Nat :=
  match firstDigitRun s.data with
  | none => none
  | some ds => some (natOfDigitsAcc 0 ds)

/-! ### Featured heuristic and dedupe (`src/main.py`) -/

/-- Model of `FEATURE_KEYWORDS` from `src/main.py`. -/
def FEATURE_KEYWORDS : List String :=
  ["piscina", "mascota", "mascotas", "cochera", "estacionamiento",
   "terraza", "balcon", "ascensor", "gimnasio", "amoblado", "amoblada"]

/-- Model of `score_property` from `src/main.py`: +1 per feature keyword occurring in
the lower-cased title+description, an inverse-price bonus when the stripped,
upper-cased price text starts with "S" and contains a digit, and a capped area
bonus from the first (up to 4 digit) number in the `m2` field.  The Python
float is modelled as an exact rational. -/
def score_property (p : Rec) : ℚ :=
  let text := lower (p.titulo ++ " " ++ p.descripcion)
  let kwScore : ℚ :=
    FEATURE_KEYWORDS.foldl (fun acc kw => if containsB kw text then acc + 1 else acc) 0
  let nums := digitsOf p.precio
  let priceScore : ℚ :=
    if startsWithB "S" (upper (strip p.precio)) && !nums.isEmpty then
      max 0 ((3000 : ℚ) / (max (natOfDigitsAcc 0 nums) 1 : ℕ))
    else 0
  let areaScore : ℚ :=
    match firstDigitRun p.m2.data with
    | none => 0
    | some ds => (min (natOfDigitsAcc 0 (ds.take 4)) 120 : ℕ) / 400
  kwScore + priceScore + areaScore

/-- The scan loop of `mark_featured_one`: carry the index of the current best
item (`none` before any item beats the initial score) and its score, adopting
an item only on a strictly greater score. -/
def bestLoop : Nat → Option Nat → ℚ → List Rec → Option Nat × ℚ
  | _, bi, bs, [] => (bi, bs)
  | i, bi, bs, p :: rest =>
    if bs < score_property p then bestLoop (i + 1) (some i) (score_property p) rest
    else bestLoop (i + 1) bi bs rest

/-- The marking loop of `mark_featured_one`: set `is_featured` on exactly the
position equal to the chosen best index. -/
def markLoop (best : Option Nat) : Nat → List Rec → List Rec
  | _, [] => []
  | i, p :: rest => { p with is_featured := best == some i } :: markLoop best (i + 1) rest

/-- Model of `mark_featured_one` from `src/main.py`. -/
def mark_featured_one (items : List Rec) : List Rec :=
  match items with
  | [] => []
  | _ => markLoop (bestLoop 0 none (-(10 ^ 9 : ℚ)) items).1 0 items

/-- Identity key used by `dedupe_by_link`: the stripped link when non-empty,
else `titulo + "|" + fuente`. -/
def recKey (p : Rec) : String :=
  let link := strip p.link
  if link = "" then p.titulo ++ "|" ++ p.fuente else link

/-- The loop of `dedupe_by_link`, carrying the set of seen keys. -/
def dedupeAux (seen : List String) : List Rec → List Rec
  | [] => []
  | p :: rest =>
    if recKey p ∈ seen then dedupeAux seen rest
    else p :: dedupeAux (recKey p :: seen) rest

/-- Model of `dedupe_by_link` from `src/main.py`: keep the first record per key. -/
def dedupe_by_link (items : List Rec) : List Rec := dedupeAux [] items

/-! ### Pagination (`src/main.py`) -/

/-- Model of `DEFAULT_PAGE_SIZE` from `src/main.py`. -/
def DEFAULT_PAGE_SIZE : Nat := 20

/-- Model of `MAX_PAGE_SIZE` from `src/main.py`. -/
def MAX_PAGE_SIZE : Nat := 20

/-- Model of `PaginationMeta` from `src/main.py`. -/
structure PaginationMeta where
  page : Nat
  page_size : Nat
  total : Nat
  total_pages : Nat
  has_prev : Bool
  has_next : Bool
deriving DecidableEq, Repr

/-- Model of `clamp_page_size` from `src/main.py`: `None` or non-positive gives the
default, otherwise capped at `MAX_PAGE_SIZE`. -/
def clamp_page_size (page_size : Option Int) : Nat :=
  match page_size with
  | none => DEFAULT_PAGE_SIZE
  | some v => if v ≤ 0 then DEFAULT_PAGE_SIZE else min v.toNat MAX_PAGE_SIZE

/-- Model of `clamp_page` from `src/main.py`: `None` or non-positive gives 1. -/
def clamp_page (page : Option Int) : Nat :=
  match page with
  | none => 1
  | some v => if v ≤ 0 then 1 else v.toNat

/-- Model of `paginate` from `src/main.py`: compute totals, clamp the page down to
`total_pages`, and slice `[(page-1)*page_size, page*page_size)`. -/
def paginate (items : List Rec) (page page_size : Nat) : List Rec × PaginationMeta :=
  let total := items.length
  let total_pages := max 1 ((total + page_size - 1) / page_size)
  let page := if page > total_pages then total_pages else page
  let start := (page - 1) * page_size
  let slice := (items.drop start).take page_size
  (slice, ⟨page, page_size, total, total_pages, decide (page > 1), decide (page < total_pages)⟩)

/-! ### Trending stats (`src/main.py`) -/

/-- Character-level body of `_stats_key`: `f"{zona}|{dormitorios}|{banos}|{pmin}|{pmax}|{palabras}"`
after normalizing zone and keywords (strip then lower) and stringifying the
optional bounds. -/
def statsKeyChars (q : SearchQuery) : List Char :=
  (stripChars q.zona.data).map Char.toLower
    ++ '|' :: (if q.dormitorios = "" then "0" else q.dormitorios).data
    ++ '|' :: (if q.banos = "" then "0" else q.banos).data
    ++ '|' :: (match q.price_min with | none => [] | some v => (intToStr v).data)
    ++ '|' :: (match q.price_max with | none => [] | some v => (intToStr v).data)
    ++ '|' :: (stripChars q.palabras_clave.data).map Char.toLower

/-- Model of `_stats_key` from `src/main.py`. -/
def stats_key (q : SearchQuery) : String := String.mk (statsKeyChars q)

/-- The `SEARCH_STATS` counter map (Python dict keyed by stats key). -/
def Stats : Type := String → Nat

/-- Model of `record_search` from `src/main.py`: increment the counter of the query's key. -/
def record_search (stats : Stats) (q : SearchQuery) : Stats :=
  fun k => if k = stats_key q then stats k + 1 else stats k

/-- A whole history of searches applied in order to the stats map. -/
def applySearches (stats : Stats) (qs : List SearchQuery) : Stats :=
  qs.foldl record_search stats

/-- Decoding of the six split components of a stats key: default empty
bedroom/bathroom components to "0" and decode the price bounds with `int`
(`none` models a failed `int` call). -/
def parseKeyCore (z d b p1 p2 pal : List Char) : Option SearchQuery :=
  let pm1 : Option (Option Int) :=
    if p1 = [] then some none else (pyToIntChars p1).map some
  let pm2 : Option (Option Int) :=
    if p2 = [] then some none else (pyToIntChars p2).map some
  match pm1, pm2 with
  | some o1, some o2 =>
    some ⟨String.mk z,
          if d = [] then "0" else String.mk d,
          if b = [] then "0" else String.mk b,
          o1, o2, String.mk pal⟩
  | _, _ => none

/-- Model of `parse_stats_key` from `src/main.py`: split on "|" into exactly six parts
(`none` models the `ValueError` raised by the fixed six-way unpacking) and
decode them. -/
def parse_stats_key (key : String) : Option SearchQuery :=
  match splitBarChars key.data with
  | [z, d, b, p1, p2, pal] => parseKeyCore z d b p1 p2 pal
  | _ => none

/-! ### Search orchestration (`src/main.py`) -/

/-- Possible outcomes of the `run_scrapers` call inside `run_search`: it may
raise, return `None`, return a list/DataFrame of records, or return some other
non-list value. -/
inductive ScraperResult
  | raises
  | retNone
  | retList (rows : List Rec)
  | nonList
deriving DecidableEq, Repr

/-- Model of `run_search` from `src/main.py`: any raise or non-list result collapses to
the empty list; a list (or DataFrame, via `to_dict("records")`) passes through. -/
def run_search (r : ScraperResult) : List Rec :=
  match r with
  | .raises => []
  | .retNone => []
  | .retList rows => rows
  | .nonList => []

/-- Model of `SearchResponse` from `src/main.py`. -/
structure SearchResponse where
  success : Bool
  count : Nat
  properties : List Rec
  meta : PaginationMeta
  message : Option String
deriving DecidableEq, Repr

/-- The no-results message of `_search_logic`. -/
def emptyMsg : String := "No se encontraron propiedades que coincidan con los criterios"

/-- Model of `_search_logic` from `src/main.py`: clamp page and page size, run the
scraper (whose outcome is the `ScraperResult` argument), return the empty
success response when nothing came back, otherwise dedupe, mark one featured
record and paginate. -/
def search_logic (sr : ScraperResult) (page page_size : Option Int) : SearchResponse :=
  let page := clamp_page page
  let page_size := clamp_page_size page_size
  let props := run_search sr
  if props = [] then
    ⟨true, 0, [], ⟨1, page_size, 0, 1, false, false⟩, some emptyMsg⟩
  else
    let props := mark_featured_one (dedupe_by_link props)
    let pm := paginate props page page_size
    ⟨true, pm.1.length, pm.1, pm.2,
     some ("Se encontraron " ++ natToStr pm.2.total ++ " propiedades")⟩

/-! ### Strict filter and keyword filter (`src/a.py`) -/

/-- The bedroom condition of `_filter_df_strict`: the filter applies only when
the request is non-blank and not the sentinel "0" and `int(request)` succeeds
(a failed `int` is swallowed by `except: pass`, leaving the rows unfiltered);
a row passes when its own field parses to the same number. -/
def dormCond (req : String) (field : String) : Bool :=
  if stripChars req.data ≠ [] ∧ req ≠ "0" then
    match pyToIntChars req.data with
    | none => true
    | some n =>
      match extract_int_from_text field with
      | none => false
      | some m => decide ((m : Int) = n)
  else true

/-- The price condition of `_filter_df_strict`: inactive when no bound is
given; otherwise the row's price must parse as local currency and the amount
must lie within the bounds (missing bounds default to ∓10^12). -/
def priceCond (pmin pmax : Option Int) (precio : String) : Bool :=
  if pmin = none ∧ pmax = none then true
  else
    match parse_price_soles precio with
    | none => false
    | some v =>
      decide (pmin.getD (-(10 ^ 12)) ≤ (v : Int)) && decide ((v : Int) ≤ pmax.getD (10 ^ 12))

/-- Model of `_filter_df_strict` from `src/a.py` on a list of records. -/
def filter_df_strict (rs : List Rec) (dormitorios_req banos_req : String)
    (price_min price_max : Option Int) : List Rec :=
  rs.filter fun r =>
    dormCond dormitorios_req r.dormitorios && dormCond banos_req r.banos
      && priceCond price_min price_max r.precio

/-- The `texto_completo` column of `_filter_by_keywords`: lower-cased
space-joined concatenation of title, description, area, bedrooms, bathrooms. -/
def texto_completo (r : Rec) : String :=
  lower (r.titulo ++ " " ++ r.descripcion ++ " " ++ r.m2 ++ " " ++ r.dormitorios ++ " " ++ r.banos)

/-- The whitespace-split, lower-cased tokens of a keyword string
(`palabras_clave.lower().split()`). -/
def tokensOf (s : String) : List String :=
  (splitWsAux (lower s).data []).map String.mk

/-- Model of `_filter_by_keywords` from `src/a.py`: a no-op for a blank keyword string,
otherwise one containment filter per token, applied in sequence. -/
def filter_by_keywords (rs : List Rec) (palabras_clave : String) : List Rec :=
  if strip palabras_clave = "" then rs
  else (tokensOf palabras_clave).foldl
    (fun acc p => acc.filter fun r => containsB p (texto_completo r)) rs

/-! ### Aggregator (`src/a.py`, `run_and_combine_all`) -/

/-- A raw adapter row before column completion: every expected column may be
absent (`none`). -/
structure RawRec where
  titulo : Option String
  precio : Option String
  m2 : Option String
  dormitorios : Option String
  banos : Option String
  descripcion : Option String
  link : Option String
  imagen_url : Option String
deriving DecidableEq, Repr

/-- Outcome of calling one adapter function: raise `TypeError`, raise some
other exception, return `None`, return a non-DataFrame value, or return a
frame of raw rows. -/
inductive CallRes
  | raisesType
  | raisesOther
  | retNone
  | retNonFrame
  | ret (rows : List RawRec)
deriving DecidableEq, Repr

/-- Behaviour of one adapter under the primary keyword-argument call and the
legacy positional fallback call. -/
structure AdapterBeh where
  primary : CallRes
  legacy : CallRes
deriving DecidableEq, Repr

/-- The defensive double-call of `run_and_combine_all`: a `TypeError` from the
primary call triggers the legacy call; any other failure, a `None`, or a
non-DataFrame result becomes the empty frame. -/
def frameOf (b : AdapterBeh) : List RawRec :=
  match b.primary with
  | .ret rows => rows
  | .retNone => []
  | .retNonFrame => []
  | .raisesOther => []
  | .raisesType =>
    match b.legacy with
    | .ret rows => rows
    | _ => []

/-- Column completion plus normalization from `run_and_combine_all`: a missing
column becomes the empty string, every value is stripped, and a literal
"None" cell is replaced by the empty string. -/
def normStr (o : Option String) : String :=
  let s := strip (o.getD "")
  if s = "None" then "" else s

/-- Turn one raw adapter row into a normalized record (no source yet). -/
def normRow (rr : RawRec) : Rec :=
  ⟨normStr rr.titulo, normStr rr.precio, normStr rr.m2, normStr rr.dormitorios,
   normStr rr.banos, normStr rr.descripcion, normStr rr.link, normStr rr.imagen_url,
   "", false⟩

/-- The adapter names registered in `SCRAPERS`, in order. -/
def SCRAPER_NAMES : List String := ["nestoria", "infocasas", "urbania", "properati", "doomos"]

/-- One adapter's processed contribution inside the loop of
`run_and_combine_all`: call (with fallback), complete and normalize columns,
apply the strict filter, apply the post-hoc keyword filter unless the adapter
natively supports keywords (urbania, doomos), and tag rows with the source. -/
def contribution (q : SearchQuery) (name : String) (b : AdapterBeh) : List Rec :=
  let rows := (frameOf b).map normRow
  let f1 := filter_df_strict rows q.dormitorios q.banos q.price_min q.price_max
  let f2 :=
    if strip q.palabras_clave ≠ "" ∧ name ∉ (["urbania", "doomos"] : List String) then
      filter_by_keywords f1 q.palabras_clave
    else f1
  f2.map fun r => { r with fuente := name }

/-- The frame-collection loop of `run_and_combine_all`: empty contributions
are skipped. -/
def framesLoop (q : SearchQuery) : List (String × AdapterBeh) → List (List Rec)
  | [] => []
  | (name, b) :: rest =>
    let c := contribution q name b
    if c = [] then framesLoop q rest else c :: framesLoop q rest

/-- The loop of `drop_duplicates(subset=["link","titulo"], keep="first")`. -/
def dropDupLTAux (seen : List (String × String)) : List Rec → List Rec
  | [] => []
  | r :: rest =>
    if (r.link, r.titulo) ∈ seen then dropDupLTAux seen rest
    else r :: dropDupLTAux ((r.link, r.titulo) :: seen) rest

/-- Model of `run_and_combine_all` from `src/a.py`, with the five scraper calls replaced
by their observable behaviours: collect per-adapter contributions, return an
empty frame when none survived, otherwise concatenate and drop duplicate
(link, titulo) pairs keeping the first occurrence. -/
def run_and_combine_all (q : SearchQuery) (advs : List (String × AdapterBeh)) : List Rec :=
  let frames := framesLoop q advs
  if frames = [] then [] else dropDupLTAux [] frames.flatten

/-! ### Helper lemmas -/

/-- Membership in the token-by-token containment fold: a record survives all
the filters exactly when it was in the input and its full text contains every
token. -/
theorem kwfold_mem (toks : List String) (rs : List Rec) (r : Rec) :
    r ∈ toks.foldl (fun acc p => acc.filter fun x => containsB p (texto_completo x)) rs ↔
      r ∈ rs ∧ ∀ t ∈ toks, containsB t (texto_completo r) = true := by
  induction toks generalizing rs with
  | nil => simp
  | cons t ts ih =>
    rw [List.foldl_cons, ih]
    simp [List.mem_filter, and_assoc]

/-- The containment fold sends the empty list to the empty list. -/
theorem kwfold_nil (toks : List String) :
    toks.foldl (fun acc p => acc.filter fun x => containsB p (texto_completo x)) [] = [] := by
  induction toks with
  | nil => rfl
  | cons t ts ih => simpa using ih

/-- The bedroom/bathroom condition is vacuous for the sentinel request "0". -/
theorem dormCond_zero (field : String) : dormCond "0" field = true := by
  simp [dormCond]

/-! ### C9 -/

/-- C9: whenever the pipeline yields zero properties (all adapters empty after
filtering, or the scraper layer raised and was swallowed by `run_search`), the
search operation returns a success response: success true, count 0, empty
property list, meta page 1 / total 0 / total_pages 1 / no prev / no next, and
an explanatory message — never an error response. -/
theorem empty_search_is_success (sr : ScraperResult) (page page_size : Option Int)
    (h : run_search sr = []) :
    search_logic sr page page_size =
      ⟨true, 0, [], ⟨1, clamp_page_size page_size, 0, 1, false, false⟩, some emptyMsg⟩ := by
  simp [search_logic, h]

/-- Witness for C9: the raising scraper at page 1, page size 20. -/
theorem empty_search_is_success_witness :
    run_search .raises = [] ∧
      search_logic .raises (some 1) (some 20) =
        ⟨true, 0, [], ⟨1, 20, 0, 1, false, false⟩, some emptyMsg⟩ :=
  ⟨rfl, empty_search_is_success .raises (some 1) (some 20) rfl⟩

/-! ### C4 -/

/-- C4: for a non-blank keyword string, the post-hoc keyword filter keeps a
record exactly when every whitespace-split, lower-cased token of the keyword
string occurs as a substring of the record's lower-cased concatenated
title/description/area/bedroom/bathroom text; moreover the combiner skips this
filter for the adapters with native keyword support (urbania, doomos): their
contribution is insensitive to the keyword string. -/
theorem keyword_filter_conjunctive (rs : List Rec) (r : Rec) (kws : String)
    (q : SearchQuery) (b : AdapterBeh) (h : strip kws ≠ "") :
    (r ∈ filter_by_keywords rs kws ↔
      r ∈ rs ∧ ∀ t ∈ tokensOf kws, containsB t (texto_completo r) = true)
    ∧ contribution q "urbania" b = contribution { q with palabras_clave := "" } "urbania" b
    ∧ contribution q "doomos" b = contribution { q with palabras_clave := "" } "doomos" b := by
  refine ⟨?_, ?_, ?_⟩
  · rw [filter_by_keywords, if_neg h]
    exact kwfold_mem _ rs r
  · simp [contribution, filter_df_strict, strip, stripChars]
  · simp [contribution, filter_df_strict, strip, stripChars]

/-- Witness for C4 at a concrete record and keyword string. -/
theorem keyword_filter_conjunctive_witness :
    strip "  Piscina MASCOTAS " ≠ "" ∧
      ((⟨"Dept PISCINA", "", "80 m2", "3", "2", "con mascotas", "", "", "", false⟩ : Rec) ∈
          filter_by_keywords
            [(⟨"Dept PISCINA", "", "80 m2", "3", "2", "con mascotas", "", "", "", false⟩ : Rec)]
            "  Piscina MASCOTAS " ↔
        (⟨"Dept PISCINA", "", "80 m2", "3", "2", "con mascotas", "", "", "", false⟩ : Rec) ∈
            [(⟨"Dept PISCINA", "", "80 m2", "3", "2", "con mascotas", "", "", "", false⟩ : Rec)] ∧
          ∀ t ∈ tokensOf "  Piscina MASCOTAS ",
            containsB t
              (texto_completo
                (⟨"Dept PISCINA", "", "80 m2", "3", "2", "con mascotas", "", "", "", false⟩ : Rec)) =
              true) :=
  ⟨by decide,
   (keyword_filter_conjunctive
      [(⟨"Dept PISCINA", "", "80 m2", "3", "2", "con mascotas", "", "", "", false⟩ : Rec)]
      (⟨"Dept PISCINA", "", "80 m2", "3", "2", "con mascotas", "", "", "", false⟩ : Rec)
      "  Piscina MASCOTAS " ⟨"z", "0", "0", none, none, ""⟩
      ⟨.raisesOther, .raisesOther⟩ (by decide)).1⟩

/-! ### C2 -/

/-- Scenario record "S/ 1,200". -/
def recS1200 : Rec := ⟨"dep a", "S/ 1,200", "", "", "", "", "la", "", "", false⟩

/-- Scenario record "$ 900". -/
def recD900 : Rec := ⟨"dep b", "$ 900", "", "", "", "", "lb", "", "", false⟩

/-- Scenario record "S/ 50". -/
def recS50 : Rec := ⟨"dep c", "S/ 50", "", "", "", "", "lc", "", "", false⟩

/-- C2: with any price bound active (and bedroom/bathroom unconstrained), the
strict filter keeps a record iff its raw price parses to the local-currency
marker with a numeric amount lying within [min, max], where an absent min
defaults to -10^12 and an absent max to 10^12; non-local or unparseable prices
are excluded.  Concretely with min 500 / max 1500: "S/ 1,200" is kept,
"$ 900" and "S/ 50" are excluded. -/
theorem strict_price_filter (rs : List Rec) (r : Rec) (pmin pmax : Option Int)
    (hp : pmin ≠ none ∨ pmax ≠ none) :
    (r ∈ filter_df_strict rs "0" "0" pmin pmax ↔
      r ∈ rs ∧ ∃ v : Nat, parse_price_soles r.precio = some v ∧
        pmin.getD (-(10 ^ 12)) ≤ (v : Int) ∧ (v : Int) ≤ pmax.getD (10 ^ 12))
    ∧ filter_df_strict [recS1200, recD900, recS50] "0" "0" (some 500) (some 1500) = [recS1200] := by
  constructor
  · have hcond : ¬(pmin = none ∧ pmax = none) := by
      rcases hp with h | h <;> intro hc <;> [exact h hc.1; exact h hc.2]
    rw [filter_df_strict, List.mem_filter, dormCond_zero, dormCond_zero]
    rw [priceCond, if_neg hcond]
    rcases hv : parse_price_soles r.precio with _ | v
    · simp [hv]
    · simp [hv]
  · decide

/-- Witness for C2: the scenario bounds 500–1500 on the three scenario
records. -/
theorem strict_price_filter_witness :
    ((some 500 : Option Int) ≠ none ∨ (some 1500 : Option Int) ≠ none) ∧
      ((recS1200 ∈ filter_df_strict [recS1200, recD900, recS50] "0" "0" (some 500) (some 1500) ↔
          recS1200 ∈ [recS1200, recD900, recS50] ∧ ∃ v : Nat,
            parse_price_soles recS1200.precio = some v ∧
              (some 500 : Option Int).getD (-(10 ^ 12)) ≤ (v : Int) ∧
                (v : Int) ≤ (some 1500 : Option Int).getD (10 ^ 12))
        ∧ filter_df_strict [recS1200, recD900, recS50] "0" "0" (some 500) (some 1500) =
            [recS1200]) :=
  ⟨Or.inl (by decide),
   strict_price_filter [recS1200, recD900, recS50] recS1200 (some 500) (some 1500)
     (Or.inl (by decide))⟩

/-! ### C3 -/

/-- The `total_pages` value computed by `paginate`. -/
def total_pages_of (items : List Rec) (ps : Nat) : Nat :=
  max 1 ((items.length + ps - 1) / ps)

/-- Summing the page lengths of the first `n` page-sized slices of a list
yields `min (n * ps) (length)`. -/
theorem pages_cover (ps : Nat) (n : Nat) (l : List Rec) :
    ((List.range n).map (fun i => ((l.drop (i * ps)).take ps).length)).sum =
      min (n * ps) l.length := by
  induction n with
  | zero => simp
  | succ m ih =>
    rw [List.range_succ, List.map_append, List.sum_append, ih]
    simp only [List.map_cons, List.map_nil, List.sum_cons, List.sum_nil,
      List.length_take, List.length_drop, Nat.succ_mul, Nat.add_zero]
    omega

/-- The clamped page size is positive and bounded by `MAX_PAGE_SIZE`. -/
theorem clamp_page_size_bounds (rawPS : Option Int) :
    1 ≤ clamp_page_size rawPS ∧ clamp_page_size rawPS ≤ MAX_PAGE_SIZE := by
  rcases rawPS with _ | v
  · exact ⟨by norm_num [clamp_page_size, DEFAULT_PAGE_SIZE], by
      norm_num [clamp_page_size, DEFAULT_PAGE_SIZE, MAX_PAGE_SIZE]⟩
  · by_cases hv : v ≤ 0 <;>
      simp [clamp_page_size, hv, DEFAULT_PAGE_SIZE, MAX_PAGE_SIZE] <;> omega

/-- The clamped page is at least 1. -/
theorem clamp_page_pos (rawPage : Option Int) : 1 ≤ clamp_page rawPage := by
  rcases rawPage with _ | v
  · simp [clamp_page]
  · by_cases hv : v ≤ 0 <;> simp [clamp_page, hv] <;> omega

/-- The bracketing property of `total_pages_of`: one page for an empty list,
otherwise `ps * tp` lies in `[length, length + ps)`. -/
theorem total_pages_of_bracket (items : List Rec) (ps : Nat) (hps : 1 ≤ ps) :
    (items.length = 0 ∧ total_pages_of items ps = 1) ∨
      (ps * total_pages_of items ps < items.length + ps ∧
        items.length ≤ ps * total_pages_of items ps) := by
  set T := items.length with hT
  rcases Nat.eq_zero_or_pos T with h0 | hpos
  · left
    refine ⟨h0, ?_⟩
    rw [total_pages_of, ← hT, h0]
    have : (0 + ps - 1) / ps = 0 := Nat.div_eq_of_lt (by omega)
    omega
  · right
    rw [total_pages_of, ← hT]
    have hq1 : 1 ≤ (T + ps - 1) / ps := by
      rw [Nat.le_div_iff_mul_le (by omega)]
      omega
    rw [Nat.max_eq_right hq1]
    have h1 : (T + ps - 1) / ps * ps ≤ T + ps - 1 := Nat.div_mul_le_self _ _
    have h2 : T + ps - 1 < ((T + ps - 1) / ps + 1) * ps := by
      rw [← Nat.div_lt_iff_lt_mul (by omega)]
      omega
    rw [Nat.succ_mul] at h2
    rw [Nat.mul_comm ps]
    generalize (T + ps - 1) / ps * ps = X at h1 h2 ⊢
    omega

/-- C3: for every item list and raw page / page size, after clamping the
page size is in [1, MAX_PAGE_SIZE] and the page is ≥ 1; `paginate` reports
total = length and total_pages = max(1, ceil(total / page_size)) (stated via
its bracketing property), clamps the page down to total_pages (never below 1),
returns the slice [(page-1)·ps, page·ps), the page lengths over all pages sum
to the total, a page beyond total_pages returns the last page's content, and
the returned slice is only empty when the whole list is. -/
theorem pagination_spec (items : List Rec) (rawPage rawPS : Option Int) (ps p : Nat)
    (hps : ps = clamp_page_size rawPS) (hp : p = clamp_page rawPage) :
    (1 ≤ ps ∧ ps ≤ MAX_PAGE_SIZE) ∧
    (paginate items p ps).2.total = items.length ∧
    (paginate items p ps).2.total_pages = total_pages_of items ps ∧
    (1 ≤ (paginate items p ps).2.page ∧
      (paginate items p ps).2.page ≤ total_pages_of items ps) ∧
    ((items.length = 0 ∧ total_pages_of items ps = 1) ∨
      (ps * total_pages_of items ps < items.length + ps ∧
        items.length ≤ ps * total_pages_of items ps)) ∧
    (paginate items p ps).2.page =
      (if total_pages_of items ps < p then total_pages_of items ps else p) ∧
    (paginate items p ps).1 =
      (items.drop (((paginate items p ps).2.page - 1) * ps)).take ps ∧
    ((List.range (total_pages_of items ps)).map
        (fun i => (paginate items (i + 1) ps).1.length)).sum = items.length ∧
    (paginate items p ps).1 = (paginate items (min p (total_pages_of items ps)) ps).1 ∧
    (items.length = 0 ∨ (paginate items p ps).1 ≠ []) := by
  have hpsb : 1 ≤ ps ∧ ps ≤ MAX_PAGE_SIZE := hps ▸ clamp_page_size_bounds rawPS
  have hp1 : 1 ≤ p := hp ▸ clamp_page_pos rawPage
  have hbr := total_pages_of_bracket items ps hpsb.1
  have htp1 : 1 ≤ total_pages_of items ps := Nat.le_max_left 1 _
  have htp : (paginate items p ps).2.total_pages = total_pages_of items ps := rfl
  have hpage : (paginate items p ps).2.page =
      (if total_pages_of items ps < p then total_pages_of items ps else p) := rfl
  refine ⟨hpsb, rfl, htp, ?_, hbr, hpage, rfl, ?_, ?_, ?_⟩
  · rw [hpage]
    split <;> omega
  · have hmap : ∀ i ∈ List.range (total_pages_of items ps),
        (paginate items (i + 1) ps).1.length = ((items.drop (i * ps)).take ps).length := by
      intro i hi
      rw [List.mem_range] at hi
      have hni : ¬ total_pages_of items ps < i + 1 := by omega
      show ((items.drop ((((if (i+1) > total_pages_of items ps then total_pages_of items ps
        else (i+1))) - 1) * ps)).take ps).length = _
      rw [if_neg hni]
      simp
    rw [List.map_congr_left hmap, pages_cover]
    rcases hbr with ⟨h0, _⟩ | ⟨_, h2⟩
    · simp [h0]
    · have : items.length ≤ total_pages_of items ps * ps := by
        rw [Nat.mul_comm]; exact h2
      omega
  · have heq : (if total_pages_of items ps < p then total_pages_of items ps else p) =
        (if total_pages_of items ps < min p (total_pages_of items ps)
          then total_pages_of items ps else min p (total_pages_of items ps)) := by
      split <;> split <;> omega
    show (items.drop (((if p > total_pages_of items ps then total_pages_of items ps else p)
        - 1) * ps)).take ps =
      (items.drop (((if min p (total_pages_of items ps) > total_pages_of items ps
        then total_pages_of items ps else min p (total_pages_of items ps)) - 1) * ps)).take ps
    rw [heq]
  · rcases Nat.eq_zero_or_pos items.length with h0 | hpos
    · exact Or.inl h0
    · right
      rcases hbr with ⟨h0, _⟩ | ⟨h2, h3⟩
      · omega
      · set pg := (if total_pages_of items ps < p then total_pages_of items ps else p) with hpg
        have hpgle : pg ≤ total_pages_of items ps := by
          rw [hpg]; split <;> omega
        have hpg1 : 1 ≤ pg := by
          rw [hpg]; split <;> omega
        have hstart : (pg - 1) * ps < items.length := by
          have hle : (pg - 1) * ps ≤ (total_pages_of items ps - 1) * ps :=
            Nat.mul_le_mul_right ps (by omega)
          have hsub : (total_pages_of items ps - 1) * ps =
              total_pages_of items ps * ps - ps := by
            rw [Nat.sub_mul, Nat.one_mul]
          rw [Nat.mul_comm ps] at h2 h3
          omega
        have hlen : (((items.drop ((pg - 1) * ps)).take ps)).length =
            min ps (items.length - (pg - 1) * ps) := by
          simp
        have hlenpos : 0 < (((items.drop ((pg - 1) * ps)).take ps)).length := by
          rw [hlen]; omega
        have : (paginate items p ps).1 = (items.drop ((pg - 1) * ps)).take ps := rfl
        rw [this]
        exact List.ne_nil_of_length_pos hlenpos

/-- Witness for C3: 45 items with page size 20; page 10 clamps to page 3 of 3. -/
theorem pagination_spec_witness :
    (20 : Nat) = clamp_page_size (some 20) ∧ (10 : Nat) = clamp_page (some 10) ∧
    ((1 ≤ (20 : Nat) ∧ (20 : Nat) ≤ MAX_PAGE_SIZE) ∧
      (paginate (List.replicate 45 (default : Rec)) 10 20).2.total =
        (List.replicate 45 (default : Rec)).length) ∧
    (paginate (List.replicate 45 (default : Rec)) 10 20).2.page = 3 ∧
    (paginate (List.replicate 45 (default : Rec)) 10 20).2.total_pages = 3 ∧
    (paginate (List.replicate 45 (default : Rec)) 10 20).2.has_prev = true ∧
    (paginate (List.replicate 45 (default : Rec)) 10 20).2.has_next = false :=
  ⟨rfl, rfl,
   ⟨(pagination_spec (List.replicate 45 default) (some 10) (some 20) 20 10 rfl rfl).1,
    (pagination_spec (List.replicate 45 default) (some 10) (some 20) 20 10 rfl rfl).2.1⟩,
   by decide, by decide, by decide, by decide⟩

/-! ### C5 -/

/-- The dedupe loop returns a sublist of its input. -/
theorem dedupeAux_sublist (l : List Rec) : ∀ seen, (dedupeAux seen l).Sublist l := by
  induction l with
  | nil => intro seen; simp [dedupeAux]
  | cons p rest ih =>
    intro seen
    rw [dedupeAux]
    split
    · exact (ih seen).trans (List.sublist_cons_self p rest)
    · exact (ih (recKey p :: seen)).cons₂ p

/-- Every key of the input appears among the seen keys or the output keys. -/
theorem dedupeAux_covers (l : List Rec) :
    ∀ seen p, p ∈ l → recKey p ∈ seen ∨ recKey p ∈ (dedupeAux seen l).map recKey := by
  induction l with
  | nil => intro seen p hp; cases hp
  | cons q rest ih =>
    intro seen p hp
    rw [dedupeAux]
    rcases List.mem_cons.mp hp with rfl | hmem
    · split
      · exact Or.inl (by assumption)
      · right; simp
    · split
      · exact ih seen p hmem
      · rcases ih (recKey q :: seen) p hmem with h | h
        · rcases List.mem_cons.mp h with h' | h'
          · right; simp [h']
          · exact Or.inl h'
        · right; simp [h]

/-- The output keys avoid the seen set and are pairwise distinct. -/
theorem dedupeAux_nodup (l : List Rec) :
    ∀ seen, (∀ k ∈ (dedupeAux seen l).map recKey, k ∉ seen) ∧
      ((dedupeAux seen l).map recKey).Nodup := by
  induction l with
  | nil => intro seen; simp [dedupeAux]
  | cons p rest ih =>
    intro seen
    rw [dedupeAux]
    split
    · exact ih seen
    · constructor
      · intro k hk
        rw [List.map_cons] at hk
        rcases List.mem_cons.mp hk with rfl | hk'
        · assumption
        · have := (ih (recKey p :: seen)).1 k hk'
          intro hs
          exact this (List.mem_cons_of_mem _ hs)
      · rw [List.map_cons, List.nodup_cons]
        refine ⟨?_, (ih (recKey p :: seen)).2⟩
        intro hmem
        exact (ih (recKey p :: seen)).1 (recKey p) hmem (List.mem_cons_self _ _)

/-- A record whose key does not occur earlier in the list (nor in the seen
set) survives the dedupe loop. -/
theorem dedupeAux_first_kept (l : List Rec) :
    ∀ seen i, i < l.length →
      (∀ j, j < i → recKey (l.getD j default) ≠ recKey (l.getD i default)) →
      recKey (l.getD i default) ∉ seen →
      l.getD i default ∈ dedupeAux seen l := by
  induction l with
  | nil => intro seen i hi; simp at hi
  | cons p rest ih =>
    intro seen i hi hfirst hseen
    rw [dedupeAux]
    rcases Nat.eq_zero_or_pos i with rfl | hipos
    · rw [if_neg (by simpa using hseen)]
      simp
    · obtain ⟨i', rfl⟩ : ∃ i', i = i' + 1 := ⟨i - 1, by omega⟩
      have hgd : (p :: rest).getD (i' + 1) default = rest.getD i' default := rfl
      rw [hgd] at hfirst hseen ⊢
      split
      · exact ih seen i' (by simpa using hi)
          (fun j hj => hfirst (j + 1) (by omega)) hseen
      · refine List.mem_cons_of_mem p ?_
        refine ih (recKey p :: seen) i' (by simpa using hi)
          (fun j hj => hfirst (j + 1) (by omega)) ?_
        intro hmem
        rcases List.mem_cons.mp hmem with h' | h'
        · exact hfirst 0 (by omega) h'.symm
        · exact hseen h'

/-- C5 counterexample: two distinct records whose links are the same non-empty
whitespace string both survive `dedupe_by_link` (the key falls back to
title+source because the *trimmed* link is empty), so a deduplicated result
set — and the page made from it — can contain two listings sharing a
non-empty URL, contradicting the claim as stated. -/
theorem dedupe_shared_url_counterexample :
    dedupe_by_link [⟨"a", "", "", "", "", "", " ", "", "x", false⟩,
        ⟨"b", "", "", "", "", "", " ", "", "x", false⟩] =
      [⟨"a", "", "", "", "", "", " ", "", "x", false⟩,
        ⟨"b", "", "", "", "", "", " ", "", "x", false⟩] ∧
    (⟨"a", "", "", "", "", "", " ", "", "x", false⟩ : Rec).link =
        (⟨"b", "", "", "", "", "", " ", "", "x", false⟩ : Rec).link ∧
    (⟨"a", "", "", "", "", "", " ", "", "x", false⟩ : Rec).link ≠ "" ∧
    (⟨"a", "", "", "", "", "", " ", "", "x", false⟩ : Rec) ≠
        ⟨"b", "", "", "", "", "", " ", "", "x", false⟩ ∧
    (paginate (dedupe_by_link [⟨"a", "", "", "", "", "", " ", "", "x", false⟩,
        ⟨"b", "", "", "", "", "", " ", "", "x", false⟩]) 1 20).1 =
      [⟨"a", "", "", "", "", "", " ", "", "x", false⟩,
        ⟨"b", "", "", "", "", "", " ", "", "x", false⟩] := by
  refine ⟨by decide, by decide, by decide, by decide, by decide⟩

/-- C5 (amended): `dedupe_by_link` keeps the first occurrence of each identity
key (trimmed link when non-blank, else title+source), preserving order (the
output is a sublist); output keys are pairwise distinct, every input key is
represented, a first occurrence is always kept, and consequently no two
records of the output — nor of any page-sized slice of it — share a link that
is non-blank after trimming. -/
theorem dedupe_spec (items : List Rec) :
    (dedupe_by_link items).Sublist items ∧
    ((dedupe_by_link items).map recKey).Nodup ∧
    items.map recKey ⊆ (dedupe_by_link items).map recKey ∧
    (∀ i, i < items.length →
      (∀ j, j < i → recKey (items.getD j default) ≠ recKey (items.getD i default)) →
      items.getD i default ∈ dedupe_by_link items) ∧
    (dedupe_by_link items).Pairwise (fun p q => strip p.link ≠ "" → p.link ≠ q.link) ∧
    (∀ a n, (((dedupe_by_link items).drop a).take n).Pairwise
      (fun p q => strip p.link ≠ "" → p.link ≠ q.link)) := by
  have hsub := dedupeAux_sublist items []
  have hnd := (dedupeAux_nodup items []).2
  have hpw : (dedupe_by_link items).Pairwise
      (fun p q => strip p.link ≠ "" → p.link ≠ q.link) := by
    have h1 : (dedupe_by_link items).Pairwise (fun p q => recKey p ≠ recKey q) :=
      (List.pairwise_map).mp hnd
    refine h1.imp ?_
    intro p q hk hlink hpq
    apply hk
    rw [recKey, recKey]
    have hstrip : strip p.link = strip q.link := by rw [hpq]
    rw [if_neg hlink, hstrip, if_neg (hstrip ▸ hlink)]
  refine ⟨hsub, hnd, ?_, ?_, hpw, ?_⟩
  · intro k hk
    rcases List.mem_map.mp hk with ⟨p, hp, rfl⟩
    rcases dedupeAux_covers items [] p hp with h | h
    · cases h
    · exact h
  · intro i hi hfirst
    exact dedupeAux_first_kept items [] i hi hfirst (by simp)
  · intro a n
    exact hpw.sublist ((List.take_sublist _ _).trans (List.drop_sublist _ _))

/-- Witness for C5 usage at a concrete list with a repeated record. -/
theorem dedupe_spec_witness :
    (dedupe_by_link [recS1200, recD900, recS1200]).Sublist [recS1200, recD900, recS1200] ∧
      ((dedupe_by_link [recS1200, recD900, recS1200]).map recKey).Nodup :=
  ⟨(dedupe_spec [recS1200, recD900, recS1200]).1,
   (dedupe_spec [recS1200, recD900, recS1200]).2.1⟩

/-! ### C7 -/

/-- Applying a history of searches adds to each key exactly the number of
queries in the history whose stats key is that key. -/
theorem applySearches_count (qs : List SearchQuery) (stats : Stats) (k : String) :
    applySearches stats qs k = stats k + qs.countP (fun q => stats_key q == k) := by
  induction qs generalizing stats with
  | nil => simp [applySearches, List.countP_nil]
  | cons q rest ih =>
    rw [applySearches, List.foldl_cons, ← applySearches, ih, List.countP_cons]
    rw [record_search]
    by_cases hq : stats_key q = k
    · simp [hq]
      omega
    · have : ¬ (k = stats_key q) := fun h => hq h.symm
      simp [this, hq]

/-- C7 (amended): the count recorded for any trend key never decreases over a
history of searches and grows by exactly one per search whose query encodes to
that key; and two queries that agree on bedroom/bathroom counts and price
bounds, and whose zone and keyword fields agree after trimming and
lower-casing (i.e. differ only in letter case or leading/trailing whitespace),
produce the identical trend key. -/
theorem trending_monotone_normalized (stats : Stats) (qs : List SearchQuery) (k : String)
    (q1 q2 : SearchQuery)
    (hz : (stripChars q1.zona.data).map Char.toLower =
      (stripChars q2.zona.data).map Char.toLower)
    (hw : (stripChars q1.palabras_clave.data).map Char.toLower =
      (stripChars q2.palabras_clave.data).map Char.toLower)
    (hd : q1.dormitorios = q2.dormitorios) (hb : q1.banos = q2.banos)
    (hm : q1.price_min = q2.price_min) (hx : q1.price_max = q2.price_max) :
    applySearches stats qs k = stats k + qs.countP (fun q => stats_key q == k)
    ∧ stats k ≤ applySearches stats qs k
    ∧ stats_key q1 = stats_key q2 := by
  refine ⟨applySearches_count qs stats k, ?_, ?_⟩
  · rw [applySearches_count]
    omega
  · rw [stats_key, stats_key, statsKeyChars, statsKeyChars, hz, hw, hd, hb, hm, hx]

/-- Witness for C7: a two-search history on one key, with the two queries
differing in case and leading/trailing whitespace of zone and keywords. -/
theorem trending_monotone_normalized_witness :
    ((stripChars (" SAN Isidro" : String).data).map Char.toLower =
      (stripChars ("san isidro " : String).data).map Char.toLower) ∧
    ((stripChars ("Pool " : String).data).map Char.toLower =
      (stripChars (" pool" : String).data).map Char.toLower) ∧
    (applySearches (fun _ => 0)
        [⟨" SAN Isidro", "0", "0", none, none, "Pool "⟩,
         ⟨"san isidro ", "0", "0", none, none, " pool"⟩]
        (stats_key ⟨" SAN Isidro", "0", "0", none, none, "Pool "⟩) =
      (fun _ => (0 : Nat)) (stats_key ⟨" SAN Isidro", "0", "0", none, none, "Pool "⟩) +
        List.countP (fun q => stats_key q == stats_key ⟨" SAN Isidro", "0", "0", none, none, "Pool "⟩)
          [⟨" SAN Isidro", "0", "0", none, none, "Pool "⟩,
           ⟨"san isidro ", "0", "0", none, none, " pool"⟩]
      ∧ (fun _ => (0 : Nat)) (stats_key ⟨" SAN Isidro", "0", "0", none, none, "Pool "⟩) ≤
          applySearches (fun _ => 0)
            [⟨" SAN Isidro", "0", "0", none, none, "Pool "⟩,
             ⟨"san isidro ", "0", "0", none, none, " pool"⟩]
            (stats_key ⟨" SAN Isidro", "0", "0", none, none, "Pool "⟩)
      ∧ stats_key ⟨" SAN Isidro", "0", "0", none, none, "Pool "⟩ =
          stats_key ⟨"san isidro ", "0", "0", none, none, " pool"⟩) :=
  ⟨by decide, by decide,
   trending_monotone_normalized (fun _ => 0)
     [⟨" SAN Isidro", "0", "0", none, none, "Pool "⟩,
      ⟨"san isidro ", "0", "0", none, none, " pool"⟩]
     (stats_key ⟨" SAN Isidro", "0", "0", none, none, "Pool "⟩)
     ⟨" SAN Isidro", "0", "0", none, none, "Pool "⟩
     ⟨"san isidro ", "0", "0", none, none, " pool"⟩
     (by decide) (by decide) rfl rfl rfl rfl⟩

/-- C7 counterexample: two queries whose zone fields differ **only in
whitespace** (identical after removing every whitespace character, other
fields identical) nevertheless produce different trend keys, because the
normalization only strips leading/trailing whitespace; recording a search for
one leaves the other key's count at zero. -/
theorem trending_internal_whitespace_counterexample :
    ((⟨"a b", "0", "0", none, none, ""⟩ : SearchQuery).zona.data.filter
        (fun c => !c.isWhitespace) =
      (⟨"a  b", "0", "0", none, none, ""⟩ : SearchQuery).zona.data.filter
        (fun c => !c.isWhitespace)) ∧
    stats_key ⟨"a b", "0", "0", none, none, ""⟩ ≠
      stats_key ⟨"a  b", "0", "0", none, none, ""⟩ ∧
    record_search (fun _ => 0) ⟨"a b", "0", "0", none, none, ""⟩
      (stats_key ⟨"a  b", "0", "0", none, none, ""⟩) = 0 := by
  refine ⟨by decide, by decide, by decide⟩

/-! ### C10: integer printing/parsing infrastructure -/

/-- The ten decimal digit characters. -/
def digitChars : List Char := ['0', '1', '2', '3', '4', '5', '6', '7', '8', '9']

/-- Unfolding equation of the decimal value function on nil. -/
theorem natOfDigitsAcc_nil (a : Nat) : natOfDigitsAcc a [] = a := rfl

/-- Unfolding equation of the decimal value function on a cons. -/
theorem natOfDigitsAcc_cons (a : Nat) (c : Char) (rest : List Char) :
    natOfDigitsAcc a (c :: rest) = natOfDigitsAcc (a * 10 + (c.toNat - 48)) rest := rfl

/-- Accumulator lemma for the decimal value function. -/
theorem natOfDigitsAcc_append (l m : List Char) (a : Nat) :
    natOfDigitsAcc a (l ++ m) = natOfDigitsAcc (natOfDigitsAcc a l) m := by
  induction l generalizing a with
  | nil => rfl
  | cons c rest ih =>
    rw [List.cons_append, natOfDigitsAcc_cons, natOfDigitsAcc_cons]
    exact ih _

/-- A digit below ten renders to one of the ten digit characters. -/
theorem digitChar_mem (d : Nat) (hd : d < 10) : Nat.digitChar d ∈ digitChars := by
  interval_cases d <;> decide

/-- Value of a rendered digit character. -/
theorem digitChar_toNat (d : Nat) (hd : d < 10) : (Nat.digitChar d).toNat = 48 + d := by
  interval_cases d <;> decide

/-- Every character produced by the digit renderer is a digit character. -/
theorem natToRevDigitsAux_mem (fuel : Nat) :
    ∀ n c, c ∈ natToRevDigitsAux fuel n → c ∈ digitChars := by
  induction fuel with
  | zero => intro n c hc; cases hc
  | succ m ih =>
    intro n c hc
    rw [natToRevDigitsAux] at hc
    by_cases hn : n = 0
    · rw [if_pos hn] at hc; cases hc
    · rw [if_neg hn] at hc
      rcases List.mem_cons.mp hc with rfl | hc'
      · exact digitChar_mem _ (Nat.mod_lt _ (by omega))
      · exact ih _ _ hc'

/-- The digit renderer is nonempty on positive inputs (with enough fuel). -/
theorem natToRevDigitsAux_ne_nil (fuel n : Nat) (h1 : 1 ≤ n) (h2 : n ≤ fuel) :
    natToRevDigitsAux fuel n ≠ [] := by
  cases fuel with
  | zero => omega
  | succ m =>
    rw [natToRevDigitsAux, if_neg (by omega)]
    exact List.cons_ne_nil _ _

/-- Reading back the rendered digits recovers the number. -/
theorem natToRevDigitsAux_val (fuel : Nat) :
    ∀ n, n ≤ fuel → natOfDigitsAcc 0 ((natToRevDigitsAux fuel n).reverse) = n := by
  induction fuel with
  | zero => intro n hn; interval_cases n; rfl
  | succ m ih =>
    intro n hn
    rw [natToRevDigitsAux]
    by_cases hn0 : n = 0
    · rw [if_pos hn0]; simpa using hn0.symm
    · rw [if_neg hn0, List.reverse_cons, natOfDigitsAcc_append]
      have hdiv : n / 10 ≤ m := by
        have := Nat.div_lt_self (by omega : 0 < n) (by omega : 1 < 10)
        omega
      rw [ih (n / 10) hdiv, natOfDigitsAcc_cons, natOfDigitsAcc_nil,
        digitChar_toNat (n % 10) (Nat.mod_lt _ (by omega))]
      omega

/-- All characters of the printed natural are digit characters. -/
theorem natToStr_all_digits (n : Nat) : ∀ c ∈ (natToStr n).data, c ∈ digitChars := by
  intro c hc
  rw [natToStr] at hc
  by_cases hn : n = 0
  · rw [if_pos hn] at hc
    have : c = '0' := by simpa using hc
    rw [this]; decide
  · rw [if_neg hn] at hc
    exact natToRevDigitsAux_mem n n c (List.mem_reverse.mp hc)

/-- Digit characters are not whitespace, nor sign or bar characters. -/
theorem digitChars_classes :
    ∀ c ∈ digitChars, c.isWhitespace = false ∧ c.isDigit = true ∧
      c ≠ '|' ∧ c ≠ '-' ∧ c ≠ '+' := by decide

/-- Lemma: `dropWhile` is the identity when the predicate fails everywhere. -/
theorem dropWhile_of_none (p : Char → Bool) (l : List Char)
    (h : ∀ c ∈ l, p c = false) : l.dropWhile p = l := by
  cases l with
  | nil => rfl
  | cons c rest => rw [List.dropWhile_cons, h c (List.mem_cons_self _ _)]; simp

/-- Stripping is the identity on whitespace-free text. -/
theorem stripChars_of_no_ws (l : List Char)
    (h : ∀ c ∈ l, c.isWhitespace = false) : stripChars l = l := by
  rw [stripChars, dropWhile_of_none _ _ h,
    dropWhile_of_none _ _ (fun c hc => h c (List.mem_reverse.mp hc)), List.reverse_reverse]

/-- The printed natural is never the empty string. -/
theorem natToStr_ne_nil (n : Nat) : (natToStr n).data ≠ [] := by
  rw [natToStr]
  by_cases hn : n = 0
  · rw [if_pos hn]; decide
  · rw [if_neg hn]
    intro hc
    exact natToRevDigitsAux_ne_nil n n (by omega) (le_refl n)
      (List.reverse_eq_nil_iff.mp hc)

/-- Parsing the printed natural with Python `int` recovers the number. -/
theorem pyToInt_natToStr (n : Nat) : pyToIntChars (natToStr n).data = some (n : Int) := by
  by_cases hn : n = 0
  · subst hn; decide
  · have hdig := natToStr_all_digits n
    have hnws : ∀ c ∈ (natToStr n).data, c.isWhitespace = false :=
      fun c hc => (digitChars_classes c (hdig c hc)).1
    rw [pyToIntChars, stripChars_of_no_ws _ hnws]
    rcases hl : (natToStr n).data with _ | ⟨c, rest⟩
    · exact absurd hl (natToStr_ne_nil n)
    · show pyIntCore c rest = some (n : Int)
      have hcmem := hdig c (hl ▸ List.mem_cons_self c rest)
      rw [pyIntCore, if_neg (digitChars_classes c hcmem).2.2.2.1,
        if_neg (digitChars_classes c hcmem).2.2.2.2]
      rw [if_pos]
      · have hval : natOfDigitsAcc 0 (c :: rest) = n := by
          have := natToRevDigitsAux_val n n (le_refl n)
          rw [natToStr, if_neg hn] at hl
          rw [← hl]
          exact this
        rw [hval]
      · rw [List.all_eq_true]
        intro x hx
        exact (digitChars_classes x (hdig x (hl ▸ hx))).2.1

/-- The printed integer is never the empty string. -/
theorem intToStr_ne_nil (i : Int) : (intToStr i).data ≠ [] := by
  rw [intToStr]
  by_cases hi : i < 0
  · rw [if_pos hi]
    show (("-" : String) ++ natToStr i.natAbs).data ≠ []
    rw [String.data_append]
    simp
  · rw [if_neg hi]; exact natToStr_ne_nil _

/-- Parsing the printed integer with Python `int` recovers the integer. -/
theorem pyToInt_intToStr (i : Int) : pyToIntChars (intToStr i).data = some i := by
  rw [intToStr]
  by_cases hi : i < 0
  · rw [if_pos hi]
    show pyToIntChars (("-" : String) ++ natToStr i.natAbs).data = some i
    rw [String.data_append]
    have hdig := natToStr_all_digits i.natAbs
    have hnws : ∀ c ∈ ('-' :: (natToStr i.natAbs).data),
        c.isWhitespace = false := by
      intro c hc
      rcases List.mem_cons.mp hc with rfl | hc'
      · decide
      · exact (digitChars_classes c (hdig c hc')).1
    show pyToIntChars ('-' :: (natToStr i.natAbs).data) = some i
    rw [pyToIntChars, stripChars_of_no_ws _ hnws]
    show pyIntCore '-' (natToStr i.natAbs).data = some i
    rw [pyIntCore, if_pos rfl, if_pos]
    · have hval : natOfDigitsAcc 0 (natToStr i.natAbs).data = i.natAbs := by
        rw [natToStr]
        by_cases hn : i.natAbs = 0
        · omega
        · rw [if_neg hn]
          exact natToRevDigitsAux_val _ _ (le_refl _)
      rw [hval]
      congr 1
      omega
    · refine ⟨natToStr_ne_nil _, ?_⟩
      rw [List.all_eq_true]
      intro x hx
      exact (digitChars_classes x (hdig x hx)).2.1
  · rw [if_neg hi, pyToInt_natToStr]
    congr 1
    omega

/-- The printed integer contains no bar character. -/
theorem intToStr_no_bar (i : Int) : '|' ∉ (intToStr i).data := by
  rw [intToStr]
  by_cases hi : i < 0
  · rw [if_pos hi]
    show '|' ∉ (("-" : String) ++ natToStr i.natAbs).data
    rw [String.data_append]
    intro hc
    rcases List.mem_cons.mp hc with h | h
    · cases h
    · exact (digitChars_classes _ (natToStr_all_digits _ _ h)).2.2.1 rfl
  · rw [if_neg hi]
    intro hc
    exact (digitChars_classes _ (natToStr_all_digits _ _ hc)).2.2.1 rfl

/-- Splitting at an explicit bar after a bar-free prefix. -/
theorem splitBarChars_append (a : List Char) (r : List Char) (ha : '|' ∉ a) :
    splitBarChars (a ++ '|' :: r) = a :: splitBarChars r := by
  induction a with
  | nil => simp [splitBarChars]
  | cons c rest ih =>
    have hc : c ≠ '|' := fun h => ha (h ▸ List.mem_cons_self c rest)
    rw [List.cons_append, splitBarChars, if_neg hc,
      ih (fun h => ha (List.mem_cons_of_mem c h))]

/-- Splitting bar-free text yields a single piece. -/
theorem splitBarChars_no_bar (a : List Char) (ha : '|' ∉ a) :
    splitBarChars a = [a] := by
  induction a with
  | nil => rfl
  | cons c rest ih =>
    have hc : c ≠ '|' := fun h => ha (h ▸ List.mem_cons_self c rest)
    rw [splitBarChars, if_neg hc, ih (fun h => ha (List.mem_cons_of_mem c h))]

/-- A non-empty string has non-empty character data. -/
theorem data_ne_nil (s : String) (h : s ≠ "") : s.data ≠ [] := by
  intro hc
  apply h
  cases s with
  | mk d => exact congrArg String.mk hc

/-- Rebuilding a string from its character data is the identity. -/
theorem string_mk_data (s : String) : String.mk s.data = s := rfl

/-- C10 (amended): for every query whose normalized zone and keyword fields
and whose bedroom and bathroom strings contain no bar character, decoding the
recorded trend key recovers exactly the normalized query (zone stripped and
lower-cased, bedroom/bathroom defaulted to "0" when empty, price bounds as the
original optional integers, keywords stripped and lower-cased); and for a
query whose zone contains a bar, the fixed six-way split of `parse_stats_key`
fails. -/
theorem stats_key_roundtrip (q : SearchQuery)
    (hz : '|' ∉ (stripChars q.zona.data).map Char.toLower)
    (hd : '|' ∉ q.dormitorios.data)
    (hb : '|' ∉ q.banos.data)
    (hw : '|' ∉ (stripChars q.palabras_clave.data).map Char.toLower) :
    parse_stats_key (stats_key q) =
      some ⟨String.mk ((stripChars q.zona.data).map Char.toLower),
            (if q.dormitorios = "" then "0" else q.dormitorios),
            (if q.banos = "" then "0" else q.banos),
            q.price_min, q.price_max,
            String.mk ((stripChars q.palabras_clave.data).map Char.toLower)⟩
    ∧ parse_stats_key (stats_key ⟨"a|b", "0", "0", none, none, ""⟩) = none := by
  refine ⟨?_, by decide⟩
  have hdcb : '|' ∉ (if q.dormitorios = "" then "0" else q.dormitorios).data := by
    by_cases h : q.dormitorios = ""
    · rw [if_pos h]; decide
    · rw [if_neg h]; exact hd
  have hbcb : '|' ∉ (if q.banos = "" then "0" else q.banos).data := by
    by_cases h : q.banos = ""
    · rw [if_pos h]; decide
    · rw [if_neg h]; exact hb
  have hdm : (if (if q.dormitorios = "" then "0" else q.dormitorios).data = []
        then ("0" : String)
        else String.mk (if q.dormitorios = "" then "0" else q.dormitorios).data) =
      (if q.dormitorios = "" then "0" else q.dormitorios) := by
    by_cases h : q.dormitorios = ""
    · rw [if_pos h]; decide
    · rw [if_neg h, if_neg (data_ne_nil _ h), string_mk_data]
  have hbm : (if (if q.banos = "" then "0" else q.banos).data = []
        then ("0" : String)
        else String.mk (if q.banos = "" then "0" else q.banos).data) =
      (if q.banos = "" then "0" else q.banos) := by
    by_cases h : q.banos = ""
    · rw [if_pos h]; decide
    · rw [if_neg h, if_neg (data_ne_nil _ h), string_mk_data]
  have hp1 : '|' ∉ (match q.price_min with
      | none => ([] : List Char) | some v => (intToStr v).data) := by
    cases q.price_min with
    | none => simp
    | some v => exact intToStr_no_bar v
  have hp2 : '|' ∉ (match q.price_max with
      | none => ([] : List Char) | some v => (intToStr v).data) := by
    cases q.price_max with
    | none => simp
    | some v => exact intToStr_no_bar v
  have hsplit : splitBarChars (statsKeyChars q) =
      [(stripChars q.zona.data).map Char.toLower,
       (if q.dormitorios = "" then "0" else q.dormitorios).data,
       (if q.banos = "" then "0" else q.banos).data,
       (match q.price_min with | none => ([] : List Char) | some v => (intToStr v).data),
       (match q.price_max with | none => ([] : List Char) | some v => (intToStr v).data),
       (stripChars q.palabras_clave.data).map Char.toLower] := by
    rw [statsKeyChars]
    simp only [List.append_assoc, List.cons_append]
    rw [splitBarChars_append _ _ hz, splitBarChars_append _ _ hdcb,
      splitBarChars_append _ _ hbcb, splitBarChars_append _ _ hp1,
      splitBarChars_append _ _ hp2, splitBarChars_no_bar _ hw]
  have hkey : (stats_key q).data = statsKeyChars q := rfl
  rw [parse_stats_key, hkey, hsplit]
  show parseKeyCore ((stripChars q.zona.data).map Char.toLower)
      (if q.dormitorios = "" then "0" else q.dormitorios).data
      (if q.banos = "" then "0" else q.banos).data
      (match q.price_min with | none => ([] : List Char) | some v => (intToStr v).data)
      (match q.price_max with | none => ([] : List Char) | some v => (intToStr v).data)
      ((stripChars q.palabras_clave.data).map Char.toLower) = _
  rcases q.price_min with _ | v1 <;> rcases q.price_max with _ | v2 <;>
    simp only [parseKeyCore, if_neg (intToStr_ne_nil _), pyToInt_intToStr,
      Option.map_some', reduceIte, hdm, hbm]

/-- C10 counterexample: a query whose *zone and keyword* fields are bar-free
(as the claim requires) but whose bedroom string contains a bar cannot be
decoded — the recorded key splits into more than six parts, so the claimed
roundtrip fails. -/
theorem stats_key_roundtrip_counterexample :
    '|' ∉ ((stripChars ("z" : String).data).map Char.toLower) ∧
    '|' ∉ ((stripChars ("kw" : String).data).map Char.toLower) ∧
    parse_stats_key (stats_key ⟨"z", "1|2", "0", none, none, "kw"⟩) = none :=
  ⟨by decide, by decide, by decide⟩

/-- Witness for C10 at a concrete query with mixed case, padding and signed
bounds. -/
theorem stats_key_roundtrip_witness :
    ('|' ∉ ((stripChars (" Lima " : String).data).map Char.toLower)) ∧
    ('|' ∉ (("2" : String).data)) ∧
    ('|' ∉ (("1" : String).data)) ∧
    ('|' ∉ ((stripChars (" Pool " : String).data).map Char.toLower)) ∧
    (parse_stats_key (stats_key ⟨" Lima ", "2", "1", some (-7), some 1500, " Pool "⟩) =
        some ⟨String.mk ((stripChars (" Lima " : String).data).map Char.toLower),
              (if ("2" : String) = "" then "0" else "2"),
              (if ("1" : String) = "" then "0" else "1"),
              some (-7), some 1500,
              String.mk ((stripChars (" Pool " : String).data).map Char.toLower)⟩ ∧
      parse_stats_key (stats_key ⟨"a|b", "0", "0", none, none, ""⟩) = none) :=
  ⟨by decide, by decide, by decide, by decide,
   stats_key_roundtrip ⟨" Lima ", "2", "1", some (-7), some 1500, " Pool "⟩
     (by decide) (by decide) (by decide) (by decide)⟩

/-! ### C6 -/

/-- Number of amenity-vocabulary keywords occurring in the lower-cased
title+description, as a rational. -/
def keywordCountQ (r : Rec) : ℚ :=
  ((FEATURE_KEYWORDS.filter fun kw =>
    containsB kw (lower (r.titulo ++ " " ++ r.descripcion))).length : ℚ)

/-- The inverse-price bonus exactly as `score_property` computes it: applied
when the stripped, upper-cased price text starts with "S" and the price text
contains a digit. -/
def priceBonusHeur (r : Rec) : ℚ :=
  if startsWithB "S" (upper (strip r.precio)) && !(digitsOf r.precio).isEmpty then
    max 0 ((3000 : ℚ) / (max (natOfDigitsAcc 0 (digitsOf r.precio)) 1 : ℕ))
  else 0

/-- The capped area bonus of `score_property`. -/
def areaBonus (r : Rec) : ℚ :=
  match firstDigitRun r.m2.data with
  | none => 0
  | some ds => (min (natOfDigitsAcc 0 (ds.take 4)) 120 : ℕ) / 400

/-- The score as the claim words it (following the spec text): the keyword
count plus an inverse-price bonus gated on the *shared currency parser*
(`parse_precio_con_moneda` / `_parse_price_soles`), plus the area bonus. -/
def score_claimed (r : Rec) : ℚ :=
  keywordCountQ r +
    (match parse_price_soles r.precio with
     | none => 0
     | some v => 3000 / (max v 1 : ℕ)) +
    areaBonus r

/-- Counting fold for the keyword score. -/
theorem foldl_kwcount (text : String) (kws : List String) (a : ℚ) :
    kws.foldl (fun acc kw => if containsB kw text then acc + 1 else acc) a =
      a + ((kws.filter fun kw => containsB kw text).length : ℚ) := by
  induction kws generalizing a with
  | nil => simp
  | cons kw rest ih =>
    rw [List.foldl_cons]
    by_cases h : containsB kw text = true
    · rw [if_pos h, ih]
      simp only [List.filter_cons, h, if_pos, List.length_cons]
      push_cast
      ring
    · rw [if_neg h, ih]
      simp [List.filter_cons, h]

/-- C6 (amended): the feature score decomposes as the number of amenity
keywords occurring in title+description, plus the inverse-price bonus
`3000 / max(v, 1)` applied when the stripped upper-cased price starts with
"S" and contains a digit (`score_property`'s own local-currency test, not the
shared currency parser), plus the capped area bonus. -/
theorem score_decomposition (r : Rec) :
    score_property r = keywordCountQ r + priceBonusHeur r + areaBonus r := by
  simp only [score_property]
  rw [foldl_kwcount]
  rw [keywordCountQ, priceBonusHeur, areaBonus, zero_add]

/-- Record with price "s/ 100": lower-case local-currency marker. -/
def c6rec : Rec := ⟨"x", "s/ 100", "", "", "", "", "", "", "", false⟩

/-- C6 counterexample: on price "s/ 100" the code's score (via its
`startswith("S")` upper-case heuristic) is 30, while the claimed formula —
whose inverse-price bonus is zero when the price does not parse as local
currency under `parse_precio_con_moneda` — yields 0: the claim's formula
disagrees with `score_property`. -/
theorem score_heuristic_counterexample :
    score_property c6rec ≠ score_claimed c6rec ∧
    score_property c6rec = 30 ∧ score_claimed c6rec = 0 ∧
    parse_price_soles c6rec.precio = none := by
  have h1 : score_property c6rec =
      0 + max 0 ((3000 : ℚ) / ((100 : ℕ) : ℚ)) + 0 := rfl
  have h2 : score_claimed c6rec = ((0 : ℕ) : ℚ) + 0 + 0 := rfl
  have h30 : score_property c6rec = 30 := by
    rw [h1]
    have hle : (0 : ℚ) ≤ (3000 : ℚ) / ((100 : ℕ) : ℚ) := by positivity
    rw [max_eq_right hle]
    push_cast
    norm_num
  have h0 : score_claimed c6rec = 0 := by
    rw [h2]
    push_cast
    norm_num
  refine ⟨?_, h30, h0, rfl⟩
  rw [h30, h0]
  norm_num

/-! ### C8 -/

/-- A contribution from an adapter that fails the primary call with
`TypeError` and the fallback call with another error is empty. -/
theorem contribution_bothfail (q : SearchQuery) (name : String) :
    contribution q name ⟨.raisesType, .raisesOther⟩ = [] := by
  rw [contribution]
  show (if strip q.palabras_clave ≠ "" ∧ name ∉ (["urbania", "doomos"] : List String) then
      filter_by_keywords (filter_df_strict (([] : List RawRec).map normRow)
        q.dormitorios q.banos q.price_min q.price_max) q.palabras_clave
    else filter_df_strict (([] : List RawRec).map normRow)
      q.dormitorios q.banos q.price_min q.price_max).map
      (fun r => { r with fuente := name }) = []
  rw [List.map_nil]
  show (if strip q.palabras_clave ≠ "" ∧ name ∉ (["urbania", "doomos"] : List String) then
      filter_by_keywords [] q.palabras_clave else []).map (fun r => { r with fuente := name }) = []
  split
  · rw [filter_by_keywords]
    split
    · rfl
    · rw [kwfold_nil]
      rfl
  · rfl

/-- Dropping a both-ways-failing adapter from the frames loop. -/
theorem framesLoop_set_bothfail (q : SearchQuery) :
    ∀ (advs : List (String × AdapterBeh)) (i : Nat) (name : String), i < advs.length →
      framesLoop q (advs.set i (name, ⟨.raisesType, .raisesOther⟩)) =
        framesLoop q (advs.eraseIdx i) := by
  intro advs
  induction advs with
  | nil => intro i name hi; simp at hi
  | cons hd rest ih =>
    intro i name hi
    cases i with
    | zero =>
      rw [List.set_cons_zero, List.eraseIdx_cons_zero, framesLoop]
      rw [contribution_bothfail]
      rfl
    | succ j =>
      rw [List.set_cons_succ, List.eraseIdx_cons_succ]
      rcases hd with ⟨n0, b0⟩
      rw [framesLoop, framesLoop, ih j name (by simpa using hi)]

/-- C8: one adapter failing both call forms is fully isolated — the combined
run equals the run without that adapter (and in particular never aborts); a
`TypeError` on the keyword-argument call followed by a successful legacy
positional call contributes exactly what a successful primary call would; a
both-ways failure contributes the empty frame, as does a non-DataFrame
result; and an adapter row with all columns absent is processed identically
to a row of empty strings (column completion before merging). -/
theorem combiner_isolation (q : SearchQuery) (advs : List (String × AdapterBeh))
    (i : Nat) (name : String) (rows : List RawRec) (leg leg' : CallRes)
    (hi : i < advs.length) :
    run_and_combine_all q (advs.set i (name, ⟨.raisesType, .raisesOther⟩)) =
        run_and_combine_all q (advs.eraseIdx i)
    ∧ contribution q name ⟨.raisesType, .ret rows⟩ = contribution q name ⟨.ret rows, leg'⟩
    ∧ contribution q name ⟨.raisesType, .raisesOther⟩ = []
    ∧ contribution q name ⟨.retNonFrame, leg⟩ = []
    ∧ contribution q name ⟨.ret [⟨none, none, none, none, none, none, none, none⟩], leg⟩
        = contribution q name
            ⟨.ret [⟨some "", some "", some "", some "", some "", some "", some "", some ""⟩],
             leg⟩ := by
  refine ⟨?_, rfl, contribution_bothfail q name, ?_, rfl⟩
  · rw [run_and_combine_all, run_and_combine_all,
      framesLoop_set_bothfail q advs i name hi]
  · exact contribution_bothfail q name

/-- Witness for C8 on five concrete adapters with the middle one failing. -/
theorem combiner_isolation_witness :
    (2 : Nat) < ([("nestoria", ⟨.ret [], .retNone⟩),
        ("infocasas", ⟨.ret [⟨some "t", some "S/ 800", none, none, none, none, some "L", none⟩],
          .raisesOther⟩),
        ("urbania", ⟨.raisesOther, .raisesOther⟩),
        ("properati", ⟨.raisesType, .ret []⟩),
        ("doomos", ⟨.retNone, .retNone⟩)] : List (String × AdapterBeh)).length ∧
    (run_and_combine_all ⟨"z", "0", "0", none, none, ""⟩
        (([("nestoria", ⟨.ret [], .retNone⟩),
          ("infocasas", ⟨.ret [⟨some "t", some "S/ 800", none, none, none, none, some "L", none⟩],
            .raisesOther⟩),
          ("urbania", ⟨.raisesOther, .raisesOther⟩),
          ("properati", ⟨.raisesType, .ret []⟩),
          ("doomos", ⟨.retNone, .retNone⟩)] :
            List (String × AdapterBeh)).set 2 ("urbania", ⟨.raisesType, .raisesOther⟩)) =
      run_and_combine_all ⟨"z", "0", "0", none, none, ""⟩
        (([("nestoria", ⟨.ret [], .retNone⟩),
          ("infocasas", ⟨.ret [⟨some "t", some "S/ 800", none, none, none, none, some "L", none⟩],
            .raisesOther⟩),
          ("urbania", ⟨.raisesOther, .raisesOther⟩),
          ("properati", ⟨.raisesType, .ret []⟩),
          ("doomos", ⟨.retNone, .retNone⟩)] :
            List (String × AdapterBeh)).eraseIdx 2) ∧
      contribution ⟨"z", "0", "0", none, none, ""⟩ "urbania" ⟨.raisesType, .raisesOther⟩ = []) :=
  ⟨by decide,
   ⟨(combiner_isolation ⟨"z", "0", "0", none, none, ""⟩
       [("nestoria", ⟨.ret [], .retNone⟩),
        ("infocasas", ⟨.ret [⟨some "t", some "S/ 800", none, none, none, none, some "L", none⟩],
          .raisesOther⟩),
        ("urbania", ⟨.raisesOther, .raisesOther⟩),
        ("properati", ⟨.raisesType, .ret []⟩),
        ("doomos", ⟨.retNone, .retNone⟩)] 2 "urbania" [] .retNone .retNone
       (by decide)).1,
    (combiner_isolation ⟨"z", "0", "0", none, none, ""⟩
       [("nestoria", ⟨.ret [], .retNone⟩),
        ("infocasas", ⟨.ret [⟨some "t", some "S/ 800", none, none, none, none, some "L", none⟩],
          .raisesOther⟩),
        ("urbania", ⟨.raisesOther, .raisesOther⟩),
        ("properati", ⟨.raisesType, .ret []⟩),
        ("doomos", ⟨.retNone, .retNone⟩)] 2 "urbania" [] .retNone .retNone
       (by decide)).2.2.1⟩⟩

/-! ### C1 -/

/-- Feature scores are nonnegative. -/
theorem score_nonneg (p : Rec) : 0 ≤ score_property p := by
  simp only [score_property]
  rw [foldl_kwcount]
  refine add_nonneg (add_nonneg (by positivity) ?_) ?_
  · split
    · exact le_max_left 0 _
    · exact le_refl 0
  · cases hfd : firstDigitRun p.m2.data with
    | none => exact le_refl 0
    | some ds =>
      show (0 : ℚ) ≤ ((min (natOfDigitsAcc 0 (ds.take 4)) 120 : ℕ) : ℚ) / 400
      positivity

/-- The best score tracked by the scan loop never decreases. -/
theorem bestLoop_snd_ge (l : List Rec) :
    ∀ (i : Nat) (bi : Option Nat) (bs : ℚ), bs ≤ (bestLoop i bi bs l).2 := by
  induction l with
  | nil => intro i bi bs; exact le_refl _
  | cons p rest ih =>
    intro i bi bs
    rw [bestLoop]
    split
    · next hlt => exact (le_of_lt hlt).trans (ih _ _ _)
    · exact ih _ _ _

/-- Every element's score is bounded by the final best score of the scan. -/
theorem bestLoop_mem_le (l : List Rec) :
    ∀ (i : Nat) (bi : Option Nat) (bs : ℚ) (j : Nat), j < l.length →
      score_property (l.getD j default) ≤ (bestLoop i bi bs l).2 := by
  induction l with
  | nil => intro i bi bs j hj; simp at hj
  | cons p rest ih =>
    intro i bi bs j hj
    cases j with
    | zero =>
      rw [List.getD_cons_zero, bestLoop]
      split
      · next hlt => exact bestLoop_snd_ge rest _ _ _
      · next hlt => exact (not_lt.mp hlt).trans (bestLoop_snd_ge rest _ _ _)
    | succ j' =>
      rw [List.getD_cons_succ, bestLoop]
      split
      · exact ih _ _ _ j' (by simpa using hj)
      · exact ih _ _ _ j' (by simpa using hj)

/-- The scan is the identity when nothing beats the carried best score
(strictly-greater comparison). -/
theorem bestLoop_stable (l : List Rec) :
    ∀ (i : Nat) (bi : Option Nat) (bs : ℚ),
      (∀ j, j < l.length → score_property (l.getD j default) ≤ bs) →
      bestLoop i bi bs l = (bi, bs) := by
  induction l with
  | nil => intro i bi bs _; rfl
  | cons p rest ih =>
    intro i bi bs hall
    have h0 : score_property p ≤ bs := hall 0 (by simp)
    rw [bestLoop, if_neg (not_lt.mpr h0)]
    exact ih _ _ _ (fun j hj => hall (j + 1) (by simpa using hj))

/-- When some element beats the carried best score, the scan returns the
index (offset by the running counter) of the first-encountered maximal
element: its score dominates the carried score strictly, and every earlier
element scores strictly below it. -/
theorem bestLoop_found (l : List Rec) :
    ∀ (i : Nat) (bi : Option Nat) (bs : ℚ),
      (∃ j, j < l.length ∧ bs < score_property (l.getD j default)) →
      ∃ k, k < l.length ∧ (bestLoop i bi bs l).1 = some (i + k) ∧
        (bestLoop i bi bs l).2 = score_property (l.getD k default) ∧
        bs < score_property (l.getD k default) ∧
        (∀ j, j < k →
          score_property (l.getD j default) < score_property (l.getD k default)) := by
  induction l with
  | nil => intro i bi bs hex; obtain ⟨j, hj, _⟩ := hex; simp at hj
  | cons p rest ih =>
    intro i bi bs hex
    by_cases hlt : bs < score_property p
    · simp only [bestLoop, if_pos hlt]
      by_cases h2 : ∃ j, j < rest.length ∧
          score_property p < score_property (rest.getD j default)
      · obtain ⟨k', hk', hfst, hsnd, hgt, hstrict⟩ := ih (i + 1) (some i) (score_property p) h2
        refine ⟨k' + 1, by simpa using hk', ?_, ?_, ?_, ?_⟩
        · rw [hfst]; congr 1; omega
        · exact hsnd
        · exact hlt.trans hgt
        · intro j hj
          cases j with
          | zero => exact hgt
          | succ j' => exact hstrict j' (by omega)
      · push_neg at h2
        rw [bestLoop_stable rest (i + 1) (some i) (score_property p) h2]
        exact ⟨0, by simp, by simp, rfl, hlt, fun j hj => absurd hj (by omega)⟩
    · simp only [bestLoop, if_neg hlt]
      have hex' : ∃ j, j < rest.length ∧ bs < score_property (rest.getD j default) := by
        obtain ⟨j, hj, hgt⟩ := hex
        cases j with
        | zero => exact absurd hgt hlt
        | succ j' => exact ⟨j', by simpa using hj, hgt⟩
      obtain ⟨k', hk', hfst, hsnd, hgt, hstrict⟩ := ih (i + 1) bi bs hex'
      refine ⟨k' + 1, by simpa using hk', ?_, hsnd, hgt, ?_⟩
      · rw [hfst]; congr 1; omega
      · intro j hj
        cases j with
        | zero => exact lt_of_le_of_lt (not_lt.mp hlt) hgt
        | succ j' => exact hstrict j' (by omega)

/-- The marking loop preserves the length. -/
theorem markLoop_length (bi : Option Nat) (l : List Rec) :
    ∀ i, (markLoop bi i l).length = l.length := by
  induction l with
  | nil => intro i; rfl
  | cons p rest ih =>
    intro i
    rw [markLoop, List.length_cons, List.length_cons, ih]

/-- The featured flag after marking at position `j` is exactly "the chosen
index equals the running counter plus `j`". -/
theorem markLoop_getD_feat (bi : Option Nat) (l : List Rec) :
    ∀ (i j : Nat), j < l.length →
      ((markLoop bi i l).getD j default).is_featured = (bi == some (i + j)) := by
  induction l with
  | nil => intro i j hj; simp at hj
  | cons p rest ih =>
    intro i j hj
    cases j with
    | zero => rw [markLoop, List.getD_cons_zero]; rfl
    | succ j' =>
      rw [markLoop, List.getD_cons_succ, ih (i + 1) j' (by simpa using hj)]
      have harith : i + 1 + j' = i + (j' + 1) := by omega
      rw [harith]

/-- The marking loop with a chosen index `b` features exactly one record when
`b` falls inside the marked range, and none otherwise. -/
theorem markLoop_countP (l : List Rec) :
    ∀ (i b : Nat), (markLoop (some b) i l).countP (fun r => r.is_featured) =
      if i ≤ b ∧ b < i + l.length then 1 else 0 := by
  induction l with
  | nil =>
    intro i b
    show List.countP _ [] = _
    rw [List.countP_nil, List.length_nil, if_neg (by omega)]
  | cons p rest ih =>
    intro i b
    rw [markLoop, List.countP_cons, ih (i + 1) b]
    have hhead : ({ p with is_featured := (some b == some i) } : Rec).is_featured
        = (some b == some i) := rfl
    rw [hhead, List.length_cons]
    by_cases hbi : b = i
    · subst hbi
      have ht : (some b == some b) = true := by simp
      rw [ht, if_pos rfl, if_neg (by omega), if_pos ⟨le_refl b, by omega⟩]
    · have hf : (some b == some i) = false := by
        rw [beq_eq_false_iff_ne]
        intro hc
        exact hbi (Option.some.inj hc)
      rw [hf, if_neg Bool.false_ne_true, Nat.add_zero]
      split
      · next h2 => rw [if_pos (by omega)]
      · next h2 => rw [if_neg (by omega)]

/-- C1 (amended): for every non-empty item list, `mark_featured_one` (applied
to the whole deduplicated result set before pagination) features exactly one
record: the stably highest-scoring one (every item scores no higher;
earlier items score strictly lower, since only strictly greater scores
displace the running best); every other record is explicitly not featured,
and hence every page-sized slice contains at most one featured record. -/
theorem featured_global_spec (items : List Rec) (h : items ≠ []) :
    ∃ b, b < items.length ∧
      (mark_featured_one items).length = items.length ∧
      (mark_featured_one items).countP (fun r => r.is_featured) = 1 ∧
      ((mark_featured_one items).getD b default).is_featured = true ∧
      (∀ j, j < items.length →
        score_property (items.getD j default) ≤ score_property (items.getD b default)) ∧
      (∀ j, j < b →
        score_property (items.getD j default) < score_property (items.getD b default)) ∧
      (∀ j, j < items.length → j ≠ b →
        ((mark_featured_one items).getD j default).is_featured = false) ∧
      (∀ a n, (((mark_featured_one items).drop a).take n).countP
        (fun r => r.is_featured) ≤ 1) := by
  obtain ⟨p, rest, rfl⟩ := List.exists_cons_of_ne_nil h
  have hmark : mark_featured_one (p :: rest) =
      markLoop (bestLoop 0 none (-(10 ^ 9 : ℚ)) (p :: rest)).1 0 (p :: rest) := rfl
  have hex : ∃ j, j < (p :: rest).length ∧
      (-(10 ^ 9 : ℚ)) < score_property ((p :: rest).getD j default) := by
    refine ⟨0, by simp, ?_⟩
    have hge := score_nonneg ((p :: rest).getD 0 default)
    have hneg : (-(10 ^ 9 : ℚ)) < 0 := by norm_num
    linarith
  obtain ⟨k, hk, hfst, hsnd, _, hstrict⟩ :=
    bestLoop_found (p :: rest) 0 none (-(10 ^ 9 : ℚ)) hex
  rw [Nat.zero_add] at hfst
  have hcount : (mark_featured_one (p :: rest)).countP (fun r => r.is_featured) = 1 := by
    rw [hmark, hfst, markLoop_countP (p :: rest) 0 k,
      if_pos ⟨Nat.zero_le k, by omega⟩]
  refine ⟨k, hk, ?_, hcount, ?_, ?_, ?_, ?_, ?_⟩
  · rw [hmark, hfst]; exact markLoop_length _ _ 0
  · rw [hmark, hfst, markLoop_getD_feat _ _ 0 k hk]
    simp
  · intro j hj
    have hle := bestLoop_mem_le (p :: rest) 0 none (-(10 ^ 9 : ℚ)) j hj
    rw [hsnd] at hle
    exact hle
  · intro j hj
    exact hstrict j hj
  · intro j hj hne
    rw [hmark, hfst, markLoop_getD_feat _ _ 0 j hj, Nat.zero_add,
      beq_eq_false_iff_ne]
    intro hc
    exact hne (Option.some.inj hc).symm
  · intro a n
    have hle : (((mark_featured_one (p :: rest)).drop a).take n).countP
          (fun r => r.is_featured) ≤
        (mark_featured_one (p :: rest)).countP (fun r => r.is_featured) :=
      ((List.take_sublist _ _).trans (List.drop_sublist _ _)).countP_le _
    rw [hcount] at hle
    exact hle

/-- High-scoring record (title contains "piscina"). -/
def cexHigh : Rec := ⟨"piscina", "", "", "", "", "", "l1", "", "", false⟩

/-- Low-scoring record. -/
def cexLow : Rec := ⟨"x", "", "", "", "", "", "l2", "", "", false⟩

/-- C1 counterexample: a search returning two records served with page size 1
produces a non-empty second page containing **zero** featured listings — the
single featured record was chosen across the whole deduplicated result set
before pagination, so it sits on page 1 only, contradicting "exactly one
featured Listing on every non-empty returned page". -/
theorem featured_missing_from_page_counterexample :
    (search_logic (.retList [cexHigh, cexLow]) (some 2) (some 1)).properties ≠ [] ∧
    (search_logic (.retList [cexHigh, cexLow]) (some 2) (some 1)).properties.countP
      (fun r => r.is_featured) = 0 ∧
    (search_logic (.retList [cexHigh, cexLow]) (some 2) (some 1)).meta.total_pages = 2 ∧
    (search_logic (.retList [cexHigh, cexLow]) (some 2) (some 1)).meta.page = 2 := by
  have hsH : score_property cexHigh = (0 : ℚ) + 1 + 0 + 0 := rfl
  have hsL : score_property cexLow = (0 : ℚ) + 0 + 0 := rfl
  have hc1 : (-(10 ^ 9 : ℚ)) < score_property cexHigh := by
    rw [hsH]; norm_num
  have hc2 : ¬ (score_property cexHigh < score_property cexLow) := by
    rw [hsH, hsL]; norm_num
  have e1 : bestLoop 0 none (-(10 ^ 9 : ℚ)) [cexHigh, cexLow] =
      (if (-(10 ^ 9 : ℚ)) < score_property cexHigh then
        bestLoop 1 (some 0) (score_property cexHigh) [cexLow]
      else bestLoop 1 none (-(10 ^ 9 : ℚ)) [cexLow]) := rfl
  have e2 : bestLoop 1 (some 0) (score_property cexHigh) [cexLow] =
      (if score_property cexHigh < score_property cexLow then
        bestLoop 2 (some 1) (score_property cexLow) []
      else bestLoop 2 (some 0) (score_property cexHigh) []) := rfl
  have hb : bestLoop 0 none (-(10 ^ 9 : ℚ)) [cexHigh, cexLow] =
      (some 0, score_property cexHigh) := by
    rw [e1, if_pos hc1, e2, if_neg hc2]
    rfl
  have hmm : mark_featured_one [cexHigh, cexLow] =
      markLoop (bestLoop 0 none (-(10 ^ 9 : ℚ)) [cexHigh, cexLow]).1 0
        [cexHigh, cexLow] := rfl
  have hd : dedupe_by_link [cexHigh, cexLow] = [cexHigh, cexLow] := by decide
  have hm : mark_featured_one [cexHigh, cexLow] =
      [⟨"piscina", "", "", "", "", "", "l1", "", "", true⟩,
       ⟨"x", "", "", "", "", "", "l2", "", "", false⟩] := by
    rw [hmm, hb]
    rfl
  have hresp : search_logic (.retList [cexHigh, cexLow]) (some 2) (some 1) =
      ⟨true, 1, [⟨"x", "", "", "", "", "", "l2", "", "", false⟩], ⟨2, 1, 2, 2, true, false⟩,
       some ("Se encontraron " ++ natToStr 2 ++ " propiedades")⟩ := by
    simp only [search_logic, run_search]
    rw [if_neg (by decide : ¬ ([cexHigh, cexLow] = ([] : List Rec))), hd, hm]
    decide
  rw [hresp]
  refine ⟨by decide, by decide, by decide, by decide⟩

/-- Witness for C1 on the singleton list. -/
theorem featured_global_spec_witness :
    ([cexLow] ≠ ([] : List Rec)) ∧
    (∃ b, b < [cexLow].length ∧
      (mark_featured_one [cexLow]).length = [cexLow].length ∧
      (mark_featured_one [cexLow]).countP (fun r => r.is_featured) = 1 ∧
      ((mark_featured_one [cexLow]).getD b default).is_featured = true ∧
      (∀ j, j < [cexLow].length →
        score_property ([cexLow].getD j default) ≤
          score_property ([cexLow].getD b default)) ∧
      (∀ j, j < b →
        score_property ([cexLow].getD j default) <
          score_property ([cexLow].getD b default)) ∧
      (∀ j, j < [cexLow].length → j ≠ b →
        ((mark_featured_one [cexLow]).getD j default).is_featured = false) ∧
      (∀ a n, (((mark_featured_one [cexLow]).drop a).take n).countP
        (fun r => r.is_featured) ≤ 1)) :=
  ⟨by decide, featured_global_spec [cexLow] (by decide)⟩

end Scraper
